import Mathlib

/-!
Verification of the token-call verification core of `dyor-hub`
(`apps/api/src/token-calls/token-call-verification.service.ts`).

Shallow embedding: timestamps are integer epoch milliseconds (`Int`),
price-history sample times are epoch seconds as in the Birdeye payload,
prices and ratios are rationals (`ℚ`).  Database writes and the calls
into the streak/badge subsystems are recorded as an explicit event
trace; a thrown exception is `Except.error`.
-/

namespace DyorHub

/-- `TokenCallStatus` from `@dyor-hub/types`. -/
inductive TokenCallStatus where
  | pending
  | verified_success
  | verified_fail
  | error
deriving DecidableEq, Repr

/-- One `{ unixTime, value }` item of the Birdeye price history. -/
structure PricePoint where
  unixTime : Int
  value : ℚ
deriving DecidableEq, Repr

/-- The fields of `TokenCallEntity` that the verification service reads or
writes.  Mutable verification outputs are `Option`-valued (null until set). -/
structure TokenCall where
  id : Nat
  userId : Nat
  tokenId : Nat
  callTimestamp : Int
  targetDate : Int
  targetPrice : ℚ
  status : TokenCallStatus
  peakPriceDuringPeriod : Option ℚ
  finalPriceAtTargetDate : Option ℚ
  targetHitTimestamp : Option Int
  timeToHitRatio : Option ℚ
  verificationTimestamp : Option Int
deriving DecidableEq, Repr

/-- `UserTokenCallStreakEntity`. -/
structure UserTokenCallStreak where
  userId : Nat
  currentSuccessStreak : Nat
  longestSuccessStreak : Nat
  lastVerifiedCallTimestamp : Option Int
deriving DecidableEq, Repr

/-- Result of `tokensService.getTokenPriceHistory`: either the item list or a
thrown error (rate limit, Birdeye failure, or unknown — all re-thrown by
`verifySingleCall` after logging). -/
inductive FetchResult where
  | ok (items : List PricePoint)
  | err
deriving DecidableEq, Repr

/-- Observable side effects of a single-call resolution, in program order:
`tokenCallRepository.save`, `updateUserTokenCallStreak(userId, status, ts)`,
and `badgeService.checkTokenCallSuccessBadges`. -/
inductive Event where
  | saveCall (c : TokenCall)
  | streakUpdate (userId : Nat) (st : TokenCallStatus) (ts : Int)
  | badgeCheck (userId : Nat) (callId : Nat)
deriving DecidableEq, Repr

/-- Accumulator of the analysis loop: `peakPriceDuringPeriod` (initialised to
`0`) and `targetHitTimestamp` (initialised to `null`). -/
structure ScanState where
  peak : ℚ
  hit : Option Int
deriving DecidableEq, Repr

/-- One iteration of the `for (const pricePoint of priceHistory.items)` loop:
raise the peak if the sample is strictly larger, and record
`new Date(pricePoint.unixTime * 1000)` as the hit timestamp for the first
sample whose value reaches the target price. -/
def scanStep (targetPriceNum : ℚ) (s : ScanState) (p : PricePoint) : ScanState :=
  { peak := if p.value > s.peak then p.value else s.peak,
    hit := if targetPriceNum ≤ p.value ∧ s.hit = none then some (p.unixTime * 1000) else s.hit }

/-- The whole analysis loop over the price history. -/
def scanItems (targetPriceNum : ℚ) (items : List PricePoint) : ScanState :=
  items.foldl (scanStep targetPriceNum) { peak := 0, hit := none }

/-- The `timeToHitRatio` computation of the success branch:
`Math.max(0, timeToHitMs) / callDurationMs` when the duration is positive,
otherwise `timeToHitMs > 0 ? 1 : 0`. -/
def hitRatio (call : TokenCall) (hitMs : Int) : ℚ :=
  let callDurationMs := call.targetDate - call.callTimestamp
  let timeToHitMs := hitMs - call.callTimestamp
  if 0 < callDurationMs then ((max 0 timeToHitMs : Int) : ℚ) / ((callDurationMs : Int) : ℚ)
  else if 0 < timeToHitMs then 1 else 0

/-- Steps 2–3 of `verifySingleCall` for a non-empty history: write peak, final
price and verification timestamp, then decide the outcome and the
time-to-hit ratio. -/
def analyzeCall (call : TokenCall) (items : List PricePoint) (now : Int) : TokenCall :=
  let finalPriceAtTargetDate := (items.getLast?).map (fun p => p.value)
  let s := scanItems call.targetPrice items
  let c1 := { call with
    peakPriceDuringPeriod := some s.peak,
    finalPriceAtTargetDate := finalPriceAtTargetDate,
    verificationTimestamp := some now }
  if call.targetPrice ≤ s.peak ∧ s.hit ≠ none then
    { c1 with
      status := TokenCallStatus.verified_success,
      targetHitTimestamp := s.hit,
      timeToHitRatio := some (hitRatio call (s.hit.getD 0)) }
  else
    { c1 with
      status := TokenCallStatus.verified_fail,
      targetHitTimestamp := none,
      timeToHitRatio := none }

/-- `verifySingleCall`: fetch errors are re-thrown; an empty history only
stamps the verification timestamp and saves; otherwise the analysed record is
produced, the streak subsystem is invoked (unless it is the step that fails,
`streakOk = false`, in which case the error is caught and only logged), the
record is saved, and on success the badge subsystem is notified. -/
def verifySingleCall (call : TokenCall) (fetch : FetchResult) (now : Int)
    (streakOk : Bool) : Except Unit (TokenCall × List Event) :=
  match fetch with
  | FetchResult.err => Except.error ()
  | FetchResult.ok items =>
    if items = [] then
      let c := { call with verificationTimestamp := some now }
      Except.ok (c, [Event.saveCall c])
    else
      let c2 := analyzeCall call items now
      let streakEvents := if streakOk then [Event.streakUpdate call.userId c2.status now] else []
      let badgeEvents :=
        if c2.status = TokenCallStatus.verified_success then
          [Event.badgeCheck call.userId call.id]
        else []
      Except.ok (c2, streakEvents ++ [Event.saveCall c2] ++ badgeEvents)

/-- `updateUserTokenCallStreak` applied to the found-or-lazily-created streak
record.  `now` is what `new Date()` yields inside the method.  JS semantics:
the guard first requires `lastVerifiedCallTimestamp` to be non-null (truthy),
and the effective time compared and stored is the incoming timestamp for a
success outcome but the current time otherwise. -/
def applyStreakUpdate (streak : UserTokenCallStreak) (callStatus : TokenCallStatus)
    (verificationTimestamp : Int) (now : Int) : UserTokenCallStreak :=
  let verificationTime :=
    if callStatus = TokenCallStatus.verified_success then verificationTimestamp else now
  let guard : Bool :=
    match streak.lastVerifiedCallTimestamp with
    | some last => verificationTime ≤ last
    | none => false
  if guard then streak
  else
    let s1 :=
      if callStatus = TokenCallStatus.verified_success then
        let cur := streak.currentSuccessStreak + 1
        { streak with
          currentSuccessStreak := cur,
          longestSuccessStreak :=
            if streak.longestSuccessStreak < cur then cur else streak.longestSuccessStreak }
      else if callStatus = TokenCallStatus.verified_fail then
        if 0 < streak.currentSuccessStreak then { streak with currentSuccessStreak := 0 }
        else streak
      else streak
    { s1 with lastVerifiedCallTimestamp := some verificationTime }

/-- Lazy creation: the record `create`d when no streak row exists for the user. -/
def freshStreak (userId : Nat) : UserTokenCallStreak :=
  { userId := userId,
    currentSuccessStreak := 0,
    longestSuccessStreak := 0,
    lastVerifiedCallTimestamp := none }

/-- `updateUserTokenCallStreak` including the find-or-create step: `store` is
the streak row currently persisted for the user, if any. -/
def updateUserTokenCallStreak (store : Option UserTokenCallStreak) (userId : Nat)
    (callStatus : TokenCallStatus) (verificationTimestamp : Int) (now : Int) :
    UserTokenCallStreak :=
  applyStreakUpdate (store.getD (freshStreak userId)) callStatus verificationTimestamp now

/-- The due-query predicate of `verifyPendingCalls`:
`status = PENDING` and `targetDate ≤ now`. -/
def isDue (now : Int) (c : TokenCall) : Bool :=
  c.status = TokenCallStatus.pending && c.targetDate ≤ now

/-- The per-record body of the `for` loop in `verifyPendingCalls`: on an
unhandled failure the record is marked `ERROR` with a fresh verification
timestamp and saved. -/
def processCall (fetchOf : Nat → FetchResult) (now : Int) (c : TokenCall) : TokenCall :=
  match verifySingleCall c (fetchOf c.id) now true with
  | Except.ok r => r.1
  | Except.error _ =>
    { c with status := TokenCallStatus.error, verificationTimestamp := some now }

/-- The effect of one whole `verifyPendingCalls` run on the call store: the
due-query selects the records to resolve, every selected record is replaced by
its resolution, and no other record is touched. -/
def verifyPendingCalls (store : List TokenCall) (fetchOf : Nat → FetchResult)
    (now : Int) : List TokenCall :=
  store.map (fun c => if isDue now c then processCall fetchOf now c else c)

/-- The list of records selected by the due-query. -/
def dueQuery (store : List TokenCall) (now : Int) : List TokenCall :=
  store.filter (isDue now)

/-- The spec's reading of the peak: "maximum observed price sample within the
call's evaluation window". -/
def specPeak (items : List PricePoint) : Option ℚ :=
  (items.map (fun p => p.value)).max?

/-- One invocation of the streak update, bundling the incoming verification
timestamp and the wall clock observed inside the method. -/
structure StreakOp where
  status : TokenCallStatus
  ts : Int
  now : Int
deriving DecidableEq, Repr

/-- A sequence of streak updates folded into the lazily-created record. -/
def runStreakUpdates (u : Nat) (ops : List StreakOp) : UserTokenCallStreak :=
  ops.foldl (fun s op => applyStreakUpdate s op.status op.ts op.now) (freshStreak u)

def eventIsSave : Event → Bool
  | Event.saveCall _ => true
  | _ => false

def eventIsStreak : Event → Bool
  | Event.streakUpdate _ _ _ => true
  | _ => false

/-- The ordering asserted by the spec for single-call resolution: every
record save precedes every streak update in the effect trace. -/
def savePrecedesStreakUpdate (tr : List Event) : Prop :=
  ∀ i j (hi : i < tr.length) (hj : j < tr.length),
    eventIsSave (tr.get ⟨i, hi⟩) = true → eventIsStreak (tr.get ⟨j, hj⟩) = true → i < j

/-- A concrete pending call used by the concrete witnesses below:
target price 2, window `[0, 2000]` in epoch milliseconds. -/
def sampleCall : TokenCall :=
  { id := 1, userId := 7, tokenId := 3, callTimestamp := 0, targetDate := 2000,
    targetPrice := 2, status := TokenCallStatus.pending,
    peakPriceDuringPeriod := none, finalPriceAtTargetDate := none,
    targetHitTimestamp := none, timeToHitRatio := none, verificationTimestamp := none }

/-- A concrete call that is already resolved (terminal status). -/
def sampleTerminalCall : TokenCall :=
  { sampleCall with id := 2, status := TokenCallStatus.verified_fail }

/-- A concrete pending call whose target date is still in the future at
`now = 2500`. -/
def sampleFutureCall : TokenCall :=
  { sampleCall with id := 4, targetDate := 9000 }

/-- A concrete streak record with history, for exercising the guard. -/
def sampleStreak : UserTokenCallStreak :=
  { userId := 7, currentSuccessStreak := 3, longestSuccessStreak := 5,
    lastVerifiedCallTimestamp := some 10 }

/-- A second concrete due call, for batch scenarios. -/
def sampleCall2 : TokenCall :=
  { sampleCall with id := 9 }

/-- A concrete fetch environment: the history fetch throws for call 1 and
returns one sample above the target for every other call. -/
def sampleFetch : Nat → FetchResult :=
  fun id => if id = 1 then FetchResult.err else FetchResult.ok [⟨1, 3⟩]

/-- Scenario D, first step: a success folded into a fresh streak. -/
def scenarioD1 : UserTokenCallStreak :=
  updateUserTokenCallStreak none 7 TokenCallStatus.verified_success 100 100

/-- Scenario D, second step: a second consecutive success. -/
def scenarioD2 : UserTokenCallStreak :=
  updateUserTokenCallStreak (some scenarioD1) 7 TokenCallStatus.verified_success 200 200

/-- Scenario D, third step: a failure breaking the streak. -/
def scenarioD3 : UserTokenCallStreak :=
  updateUserTokenCallStreak (some scenarioD2) 7 TokenCallStatus.verified_fail 300 300

/-! ### Fold lemmas for the analysis loop -/

theorem le_foldl_max (l : List ℚ) (a : ℚ) : a ≤ l.foldl max a := by
  induction l generalizing a with
  | nil => exact le_refl a
  | cons x t ih => exact le_trans (le_max_left a x) (ih (max a x))

theorem mem_le_foldl_max (l : List ℚ) (a x : ℚ) (hx : x ∈ l) : x ≤ l.foldl max a := by
  induction l generalizing a with
  | nil => cases hx
  | cons y t ih =>
    rcases List.mem_cons.mp hx with h | h
    · subst h
      exact le_trans (le_max_right a x) (le_foldl_max t (max a x))
    · exact ih (max a y) h

theorem foldl_max_swap (l : List ℚ) (b a : ℚ) :
    l.foldl max (max b a) = max b (l.foldl max a) := by
  induction l generalizing a with
  | nil => rfl
  | cons x t ih =>
    show t.foldl max (max (max b a) x) = max b (t.foldl max (max a x))
    rw [max_assoc, ih]

theorem scanItems_peak (t : ℚ) (items : List PricePoint) (s : ScanState) :
    (items.foldl (scanStep t) s).peak = items.foldl (fun a p => max a p.value) s.peak := by
  induction items generalizing s with
  | nil => rfl
  | cons p rest ih =>
    show (rest.foldl (scanStep t) (scanStep t s p)).peak = _
    rw [ih]
    have hpeak : (scanStep t s p).peak = max s.peak p.value := by
      simp only [scanStep]
      rcases lt_or_ge s.peak p.value with h | h
      · rw [if_pos h, max_eq_right (le_of_lt h)]
      · rw [if_neg (not_lt.mpr h), max_eq_left h]
    rw [hpeak]
    rfl

theorem foldl_max_comp (items : List PricePoint) (a : ℚ) :
    items.foldl (fun a p => max a p.value) a = (items.map (fun p => p.value)).foldl max a := by
  induction items generalizing a with
  | nil => rfl
  | cons p rest ih => exact ih (max a p.value)

theorem scanItems_hit_absorb (t : ℚ) (items : List PricePoint) (s : ScanState) (h : Int)
    (hs : s.hit = some h) : (items.foldl (scanStep t) s).hit = some h := by
  induction items generalizing s with
  | nil => exact hs
  | cons p rest ih =>
    show (rest.foldl (scanStep t) (scanStep t s p)).hit = some h
    refine ih _ ?_
    simp only [scanStep, hs]
    rw [if_neg]
    rintro ⟨-, hnone⟩
    exact Option.noConfusion hnone

theorem scanItems_hit_of_none (t : ℚ) (items : List PricePoint) (s : ScanState)
    (hs : s.hit = none) :
    (items.foldl (scanStep t) s).hit =
      (items.find? (fun p => decide (t ≤ p.value))).map (fun p => p.unixTime * 1000) := by
  induction items generalizing s with
  | nil => exact hs
  | cons p rest ih =>
    by_cases hp : t ≤ p.value
    · have hstep : (scanStep t s p).hit = some (p.unixTime * 1000) := by
        show (if t ≤ p.value ∧ s.hit = none then some (p.unixTime * 1000) else s.hit) = _
        rw [if_pos ⟨hp, hs⟩]
      rw [List.foldl_cons, scanItems_hit_absorb t rest _ _ hstep,
        List.find?_cons_of_pos _ (by simpa using hp)]
      rfl
    · rw [List.foldl_cons]
      refine (ih (scanStep t s p) ?_).trans ?_
      · show (if t ≤ p.value ∧ s.hit = none then some (p.unixTime * 1000) else s.hit) = none
        rw [if_neg (fun hc => hp hc.1), hs]
      · rw [List.find?_cons_of_neg _ (by simpa using hp)]

theorem scanItems_hit (t : ℚ) (items : List PricePoint) :
    (scanItems t items).hit =
      (items.find? (fun p => decide (t ≤ p.value))).map (fun p => p.unixTime * 1000) :=
  scanItems_hit_of_none t items _ rfl

theorem scanItems_hit_none_iff (t : ℚ) (items : List PricePoint) :
    (scanItems t items).hit = none ↔ ∀ p ∈ items, p.value < t := by
  rw [scanItems_hit]
  rw [Option.map_eq_none', List.find?_eq_none]
  constructor
  · intro h p hp
    have := h p hp
    simpa using not_le.mp (by simpa using this)
  · intro h p hp
    simp only [decide_eq_true_eq]
    exact not_le.mpr (h p hp)

theorem scanItems_peak_ge (t : ℚ) (items : List PricePoint) (p : PricePoint)
    (hp : p ∈ items) : p.value ≤ (scanItems t items).peak := by
  unfold scanItems
  rw [scanItems_peak, foldl_max_comp]
  exact mem_le_foldl_max _ 0 p.value (List.mem_map.mpr ⟨p, hp, rfl⟩)

theorem scanItems_hit_some (t : ℚ) (items : List PricePoint) (h : Int)
    (hh : (scanItems t items).hit = some h) :
    ∃ p ∈ items, t ≤ p.value ∧ h = p.unixTime * 1000 := by
  rw [scanItems_hit] at hh
  rcases Option.map_eq_some'.mp hh with ⟨p, hfind, hts⟩
  exact ⟨p, List.mem_of_find?_eq_some hfind,
    by simpa using List.find?_some hfind, hts.symm⟩

/-- If a hit was recorded, the computed peak reaches the target price:
the "structurally always true" second conjunct of the outcome rule. -/
theorem hit_implies_peak_ge (t : ℚ) (items : List PricePoint)
    (hh : (scanItems t items).hit ≠ none) : t ≤ (scanItems t items).peak := by
  rcases Option.ne_none_iff_exists.mp hh with ⟨h, hsome⟩
  rcases scanItems_hit_some t items h hsome.symm with ⟨p, hp, hle, -⟩
  exact le_trans hle (scanItems_peak_ge t items p hp)

theorem scanItems_hit_ne_none_iff (t : ℚ) (items : List PricePoint) :
    (scanItems t items).hit ≠ none ↔ ∃ p ∈ items, t ≤ p.value := by
  rw [Ne, scanItems_hit_none_iff]
  push_neg
  rfl

/-! ### Branch lemmas for `analyzeCall` -/

theorem analyzeCall_success_eq (call : TokenCall) (items : List PricePoint) (now : Int)
    (h : call.targetPrice ≤ (scanItems call.targetPrice items).peak ∧
      (scanItems call.targetPrice items).hit ≠ none) :
    analyzeCall call items now =
      { call with
        peakPriceDuringPeriod := some (scanItems call.targetPrice items).peak,
        finalPriceAtTargetDate := (items.getLast?).map (fun p => p.value),
        verificationTimestamp := some now,
        status := TokenCallStatus.verified_success,
        targetHitTimestamp := (scanItems call.targetPrice items).hit,
        timeToHitRatio :=
          some (hitRatio call ((scanItems call.targetPrice items).hit.getD 0)) } := by
  unfold analyzeCall
  rw [if_pos h]

theorem analyzeCall_fail_eq (call : TokenCall) (items : List PricePoint) (now : Int)
    (h : ¬(call.targetPrice ≤ (scanItems call.targetPrice items).peak ∧
      (scanItems call.targetPrice items).hit ≠ none)) :
    analyzeCall call items now =
      { call with
        peakPriceDuringPeriod := some (scanItems call.targetPrice items).peak,
        finalPriceAtTargetDate := (items.getLast?).map (fun p => p.value),
        verificationTimestamp := some now,
        status := TokenCallStatus.verified_fail,
        targetHitTimestamp := none,
        timeToHitRatio := none } := by
  unfold analyzeCall
  rw [if_neg h]

theorem analyzeCall_status_iff (call : TokenCall) (items : List PricePoint) (now : Int) :
    (analyzeCall call items now).status = TokenCallStatus.verified_success ↔
      (call.targetPrice ≤ (scanItems call.targetPrice items).peak ∧
        (scanItems call.targetPrice items).hit ≠ none) := by
  by_cases h : call.targetPrice ≤ (scanItems call.targetPrice items).peak ∧
      (scanItems call.targetPrice items).hit ≠ none
  · rw [analyzeCall_success_eq call items now h]
    exact ⟨fun _ => h, fun _ => rfl⟩
  · rw [analyzeCall_fail_eq call items now h]
    exact ⟨fun habs => TokenCallStatus.noConfusion habs, fun hc => absurd hc h⟩

theorem analyzeCall_cond_iff (call : TokenCall) (items : List PricePoint) :
    (call.targetPrice ≤ (scanItems call.targetPrice items).peak ∧
      (scanItems call.targetPrice items).hit ≠ none) ↔
      ∃ p ∈ items, call.targetPrice ≤ p.value := by
  constructor
  · intro h
    exact (scanItems_hit_ne_none_iff call.targetPrice items).mp h.2
  · intro h
    have hne := (scanItems_hit_ne_none_iff call.targetPrice items).mpr h
    exact ⟨hit_implies_peak_ge call.targetPrice items hne, hne⟩

theorem analyzeCall_hitTimestamp (call : TokenCall) (items : List PricePoint) (now : Int) :
    (analyzeCall call items now).targetHitTimestamp =
      (scanItems call.targetPrice items).hit := by
  by_cases h : call.targetPrice ≤ (scanItems call.targetPrice items).peak ∧
      (scanItems call.targetPrice items).hit ≠ none
  · rw [analyzeCall_success_eq call items now h]
  · rw [analyzeCall_fail_eq call items now h]
    by_cases hh : (scanItems call.targetPrice items).hit = none
    · exact hh.symm
    · exact absurd ⟨hit_implies_peak_ge call.targetPrice items hh, hh⟩ h

/-! ### Lemmas about the streak update -/

theorem if_lt_eq_max (a b : Nat) : (if a < b then b else a) = max a b := by
  rcases Nat.lt_or_ge a b with h | h
  · rw [if_pos h, Nat.max_eq_right (Nat.le_of_lt h)]
  · rw [if_neg (Nat.not_lt.mpr h), Nat.max_eq_left h]

theorem applyStreakUpdate_noop (streak : UserTokenCallStreak) (st : TokenCallStatus)
    (ts now last : Int) (hl : streak.lastVerifiedCallTimestamp = some last)
    (h : (if st = TokenCallStatus.verified_success then ts else now) ≤ last) :
    applyStreakUpdate streak st ts now = streak := by
  unfold applyStreakUpdate
  rw [hl]
  simp [h]

theorem applyStreakUpdate_success (streak : UserTokenCallStreak) (ts now : Int)
    (h : ∀ last, streak.lastVerifiedCallTimestamp = some last → last < ts) :
    applyStreakUpdate streak TokenCallStatus.verified_success ts now =
      { streak with
        currentSuccessStreak := streak.currentSuccessStreak + 1,
        longestSuccessStreak :=
          max streak.longestSuccessStreak (streak.currentSuccessStreak + 1),
        lastVerifiedCallTimestamp := some ts } := by
  unfold applyStreakUpdate
  cases hl : streak.lastVerifiedCallTimestamp with
  | none => simp [if_lt_eq_max]
  | some last => simp [not_le.mpr (h last hl), if_lt_eq_max]

theorem applyStreakUpdate_fail (streak : UserTokenCallStreak) (ts now : Int)
    (h : ∀ last, streak.lastVerifiedCallTimestamp = some last → last < now) :
    applyStreakUpdate streak TokenCallStatus.verified_fail ts now =
      { streak with
        currentSuccessStreak := 0,
        lastVerifiedCallTimestamp := some now } := by
  obtain ⟨u, cur, lng, lastO⟩ := streak
  unfold applyStreakUpdate
  cases lastO with
  | none =>
    rcases Nat.eq_zero_or_pos cur with hc | hc
    · subst hc
      simp
    · simp [hc]
  | some last =>
    have := not_le.mpr (h last rfl)
    rcases Nat.eq_zero_or_pos cur with hc | hc
    · subst hc
      simp [this]
    · simp [this, hc]

theorem applyStreakUpdate_other (streak : UserTokenCallStreak) (st : TokenCallStatus)
    (ts now : Int)
    (hs : st ≠ TokenCallStatus.verified_success) (hf : st ≠ TokenCallStatus.verified_fail)
    (h : ∀ last, streak.lastVerifiedCallTimestamp = some last → last < now) :
    applyStreakUpdate streak st ts now =
      { streak with lastVerifiedCallTimestamp := some now } := by
  unfold applyStreakUpdate
  cases hl : streak.lastVerifiedCallTimestamp with
  | none => simp [hs, hf]
  | some last => simp [hs, hf, not_le.mpr (h last hl)]

theorem applyStreakUpdate_last (streak : UserTokenCallStreak) (st : TokenCallStatus)
    (ts now : Int)
    (h : ∀ last, streak.lastVerifiedCallTimestamp = some last →
      last < (if st = TokenCallStatus.verified_success then ts else now)) :
    (applyStreakUpdate streak st ts now).lastVerifiedCallTimestamp =
      some (if st = TokenCallStatus.verified_success then ts else now) := by
  cases st with
  | verified_success =>
    rw [applyStreakUpdate_success streak ts now (fun last hl => by simpa using h last hl)]
    simp
  | verified_fail =>
    rw [applyStreakUpdate_fail streak ts now (fun last hl => by simpa using h last hl)]
    simp
  | pending =>
    rw [applyStreakUpdate_other streak _ ts now (by simp) (by simp)
      (fun last hl => by simpa using h last hl)]
    simp
  | error =>
    rw [applyStreakUpdate_other streak _ ts now (by simp) (by simp)
      (fun last hl => by simpa using h last hl)]
    simp

theorem applyStreakUpdate_longest_mono (s : UserTokenCallStreak) (st : TokenCallStatus)
    (ts now : Int) :
    s.longestSuccessStreak ≤ (applyStreakUpdate s st ts now).longestSuccessStreak := by
  rcases hl : s.lastVerifiedCallTimestamp with - | last
  · cases st with
    | verified_success =>
      rw [applyStreakUpdate_success s ts now (fun l hl' => by rw [hl] at hl'; cases hl')]
      exact le_max_left _ _
    | verified_fail =>
      rw [applyStreakUpdate_fail s ts now (fun l hl' => by rw [hl] at hl'; cases hl')]
    | pending =>
      rw [applyStreakUpdate_other s _ ts now (by simp) (by simp)
        (fun l hl' => by rw [hl] at hl'; cases hl')]
    | error =>
      rw [applyStreakUpdate_other s _ ts now (by simp) (by simp)
        (fun l hl' => by rw [hl] at hl'; cases hl')]
  · rcases le_or_lt (if st = TokenCallStatus.verified_success then ts else now) last with hle | hlt
    · rw [applyStreakUpdate_noop s st ts now last hl hle]
    · cases st with
      | verified_success =>
        rw [applyStreakUpdate_success s ts now
          (fun l hl' => by rw [hl] at hl'; cases hl'; simpa using hlt)]
        exact le_max_left _ _
      | verified_fail =>
        rw [applyStreakUpdate_fail s ts now
          (fun l hl' => by rw [hl] at hl'; cases hl'; simpa using hlt)]
      | pending =>
        rw [applyStreakUpdate_other s _ ts now (by simp) (by simp)
          (fun l hl' => by rw [hl] at hl'; cases hl'; simpa using hlt)]
      | error =>
        rw [applyStreakUpdate_other s _ ts now (by simp) (by simp)
          (fun l hl' => by rw [hl] at hl'; cases hl'; simpa using hlt)]

theorem applyStreakUpdate_inv (s : UserTokenCallStreak) (st : TokenCallStatus)
    (ts now : Int) (h : s.currentSuccessStreak ≤ s.longestSuccessStreak) :
    (applyStreakUpdate s st ts now).currentSuccessStreak ≤
      (applyStreakUpdate s st ts now).longestSuccessStreak := by
  rcases hl : s.lastVerifiedCallTimestamp with - | last
  · cases st with
    | verified_success =>
      rw [applyStreakUpdate_success s ts now (fun l hl' => by rw [hl] at hl'; cases hl')]
      exact le_max_right _ _
    | verified_fail =>
      rw [applyStreakUpdate_fail s ts now (fun l hl' => by rw [hl] at hl'; cases hl')]
      exact Nat.zero_le _
    | pending =>
      rw [applyStreakUpdate_other s _ ts now (by simp) (by simp)
        (fun l hl' => by rw [hl] at hl'; cases hl')]
      exact h
    | error =>
      rw [applyStreakUpdate_other s _ ts now (by simp) (by simp)
        (fun l hl' => by rw [hl] at hl'; cases hl')]
      exact h
  · rcases le_or_lt (if st = TokenCallStatus.verified_success then ts else now) last with hle | hlt
    · rw [applyStreakUpdate_noop s st ts now last hl hle]
      exact h
    · cases st with
      | verified_success =>
        rw [applyStreakUpdate_success s ts now
          (fun l hl' => by rw [hl] at hl'; cases hl'; simpa using hlt)]
        exact le_max_right _ _
      | verified_fail =>
        rw [applyStreakUpdate_fail s ts now
          (fun l hl' => by rw [hl] at hl'; cases hl'; simpa using hlt)]
        exact Nat.zero_le _
      | pending =>
        rw [applyStreakUpdate_other s _ ts now (by simp) (by simp)
          (fun l hl' => by rw [hl] at hl'; cases hl'; simpa using hlt)]
        exact h
      | error =>
        rw [applyStreakUpdate_other s _ ts now (by simp) (by simp)
          (fun l hl' => by rw [hl] at hl'; cases hl'; simpa using hlt)]
        exact h

theorem foldStreak_inv (ops : List StreakOp) (s : UserTokenCallStreak)
    (h : s.currentSuccessStreak ≤ s.longestSuccessStreak) :
    (ops.foldl (fun s op => applyStreakUpdate s op.status op.ts op.now) s).currentSuccessStreak ≤
      (ops.foldl (fun s op => applyStreakUpdate s op.status op.ts op.now) s).longestSuccessStreak := by
  induction ops generalizing s with
  | nil => exact h
  | cons op rest ih => exact ih _ (applyStreakUpdate_inv s op.status op.ts op.now h)

theorem foldStreak_longest_mono (ops : List StreakOp) (s : UserTokenCallStreak) :
    s.longestSuccessStreak ≤
      (ops.foldl (fun s op => applyStreakUpdate s op.status op.ts op.now) s).longestSuccessStreak := by
  induction ops generalizing s with
  | nil => exact le_refl _
  | cons op rest ih =>
    exact le_trans (applyStreakUpdate_longest_mono s op.status op.ts op.now)
      (ih (applyStreakUpdate s op.status op.ts op.now))

theorem verifySingleCall_nonempty (call : TokenCall) (items : List PricePoint) (now : Int)
    (streakOk : Bool) (hne : items ≠ []) :
    verifySingleCall call (FetchResult.ok items) now streakOk =
      Except.ok (analyzeCall call items now,
        (if streakOk then
          [Event.streakUpdate call.userId (analyzeCall call items now).status now]
        else []) ++
        [Event.saveCall (analyzeCall call items now)] ++
        (if (analyzeCall call items now).status = TokenCallStatus.verified_success then
          [Event.badgeCheck call.userId call.id]
        else [])) := by
  show (if items = [] then _ else _) = _
  rw [if_neg hne]

/-! ### The claims -/

/-- C1: for a pending due call with non-empty price history, `verifySingleCall`
resolves the record produced by the analysis scan; its status is
`VERIFIED_SUCCESS` iff a target-hit timestamp was found and the computed peak
is at least the target price, the second conjunct always holds when the first
does, hence success holds iff some sample's price is at least the target
price; otherwise the status is `VERIFIED_FAIL` with `targetHitTimestamp` and
`timeToHitRatio` both null. -/
theorem C1_outcome_rule (call : TokenCall) (items : List PricePoint) (now : Int)
    (streakOk : Bool) (hne : items ≠ []) :
    (∃ evs, verifySingleCall call (FetchResult.ok items) now streakOk =
      Except.ok (analyzeCall call items now, evs)) ∧
    ((analyzeCall call items now).status = TokenCallStatus.verified_success ↔
      ((scanItems call.targetPrice items).hit ≠ none ∧
        call.targetPrice ≤ (scanItems call.targetPrice items).peak)) ∧
    ((scanItems call.targetPrice items).hit ≠ none →
      call.targetPrice ≤ (scanItems call.targetPrice items).peak) ∧
    ((analyzeCall call items now).status = TokenCallStatus.verified_success ↔
      ∃ p ∈ items, call.targetPrice ≤ p.value) ∧
    ((analyzeCall call items now).status ≠ TokenCallStatus.verified_success →
      (analyzeCall call items now).status = TokenCallStatus.verified_fail ∧
      (analyzeCall call items now).targetHitTimestamp = none ∧
      (analyzeCall call items now).timeToHitRatio = none) := by
  refine ⟨⟨_, verifySingleCall_nonempty call items now streakOk hne⟩, ?_, ?_, ?_, ?_⟩
  · exact (analyzeCall_status_iff call items now).trans and_comm
  · exact hit_implies_peak_ge call.targetPrice items
  · exact (analyzeCall_status_iff call items now).trans (analyzeCall_cond_iff call items)
  · intro hns
    by_cases hcond : call.targetPrice ≤ (scanItems call.targetPrice items).peak ∧
        (scanItems call.targetPrice items).hit ≠ none
    · exact absurd ((analyzeCall_status_iff call items now).mpr hcond) hns
    · rw [analyzeCall_fail_eq call items now hcond]
      exact ⟨rfl, rfl, rfl⟩

/-- C1 witness: at a concrete call and one sample above the target the
resolution succeeds, and it does so because the sample reaches the target. -/
theorem C1_outcome_rule_witness :
    (analyzeCall sampleCall [⟨1, 3⟩] 5).status = TokenCallStatus.verified_success :=
  ((C1_outcome_rule sampleCall [⟨1, 3⟩] 5 true (by decide)).2.2.2.1).mpr
    ⟨⟨1, 3⟩, by decide, by decide⟩

theorem verifySingleCall_empty (call : TokenCall) (now : Int) (streakOk : Bool) :
    verifySingleCall call (FetchResult.ok []) now streakOk =
      Except.ok ({ call with verificationTimestamp := some now },
        [Event.saveCall { call with verificationTimestamp := some now }]) := rfl

/-- C2: on a successful resolution the stored ratio is
`max(0, hit − call) / (targetDate − call)` for a positive duration and the
`1 / 0` rule for zero duration; when all samples lie inside the call window
the ratio lies in `[0, 1]` and the hit timestamp is at most the target date. -/
theorem C2_time_to_hit (call : TokenCall) (items : List PricePoint) (now : Int)
    (streakOk : Bool) (c' : TokenCall) (evs : List Event)
    (hpend : call.status = TokenCallStatus.pending)
    (hrun : verifySingleCall call (FetchResult.ok items) now streakOk = Except.ok (c', evs))
    (hsucc : c'.status = TokenCallStatus.verified_success) :
    (∃ h, c'.targetHitTimestamp = some h ∧
      c'.timeToHitRatio = some (hitRatio call h) ∧
      (0 < call.targetDate - call.callTimestamp →
        c'.timeToHitRatio = some (((max 0 (h - call.callTimestamp) : Int) : ℚ) /
          ((call.targetDate - call.callTimestamp : Int) : ℚ))) ∧
      (call.targetDate - call.callTimestamp = 0 →
        c'.timeToHitRatio = some (if 0 < h - call.callTimestamp then (1 : ℚ) else 0))) ∧
    ((∀ p ∈ items, call.callTimestamp ≤ p.unixTime * 1000 ∧
        p.unixTime * 1000 ≤ call.targetDate) →
      (∃ r, c'.timeToHitRatio = some r ∧ 0 ≤ r ∧ r ≤ 1) ∧
      (∀ h, c'.targetHitTimestamp = some h → h ≤ call.targetDate)) := by
  by_cases hne : items = []
  · subst hne
    rw [verifySingleCall_empty call now streakOk] at hrun
    have hc : { call with verificationTimestamp := some now } = c' :=
      congrArg Prod.fst (Except.ok.inj hrun)
    rw [← hc] at hsucc
    exact TokenCallStatus.noConfusion (hpend.symm.trans hsucc)
  · rw [verifySingleCall_nonempty call items now streakOk hne] at hrun
    have hc : analyzeCall call items now = c' := congrArg Prod.fst (Except.ok.inj hrun)
    subst hc
    obtain ⟨hpeak, hhit⟩ := (analyzeCall_status_iff call items now).mp hsucc
    obtain ⟨h, hh⟩ := Option.ne_none_iff_exists'.mp hhit
    have heq := analyzeCall_success_eq call items now ⟨hpeak, hhit⟩
    refine ⟨⟨h, ?_, ?_, ?_, ?_⟩, ?_⟩
    · rw [analyzeCall_hitTimestamp, hh]
    · rw [heq, hh]
      rfl
    · intro hdur
      rw [heq, hh]
      show some (hitRatio call h) = _
      simp only [hitRatio]
      rw [if_pos hdur]
    · intro hdur0
      rw [heq, hh]
      show some (hitRatio call h) = _
      simp only [hitRatio]
      rw [hdur0, if_neg (lt_irrefl 0)]
    · intro hwin
      obtain ⟨p, hp, -, hpts⟩ := scanItems_hit_some call.targetPrice items h hh
      have hw := hwin p hp
      have hct : call.callTimestamp ≤ h := hpts ▸ hw.1
      have htd : h ≤ call.targetDate := hpts ▸ hw.2
      constructor
      · rcases lt_trichotomy 0 (call.targetDate - call.callTimestamp) with hdur | hdur | hdur
        · refine ⟨((max 0 (h - call.callTimestamp) : Int) : ℚ) /
            ((call.targetDate - call.callTimestamp : Int) : ℚ), ?_, ?_, ?_⟩
          · rw [heq, hh]
            show some (hitRatio call h) = _
            simp only [hitRatio]
            rw [if_pos hdur]
          · exact div_nonneg (Int.cast_nonneg.mpr (le_max_left 0 _))
              (Int.cast_nonneg.mpr (le_of_lt hdur))
          · rw [div_le_one (by exact_mod_cast hdur)]
            rw [max_eq_right (by omega : (0 : Int) ≤ h - call.callTimestamp)]
            exact_mod_cast
              (by omega : h - call.callTimestamp ≤ call.targetDate - call.callTimestamp)
        · refine ⟨0, ?_, le_refl 0, by norm_num⟩
          rw [heq, hh]
          show some (hitRatio call h) = _
          simp only [hitRatio]
          rw [if_neg (by omega : ¬(0 : Int) < call.targetDate - call.callTimestamp),
            if_neg (by omega : ¬(0 : Int) < h - call.callTimestamp)]
        · exact absurd hdur (by omega)
      · intro h' hh'
        rw [analyzeCall_hitTimestamp, hh] at hh'
        exact (Option.some.inj hh') ▸ htd

/-- C2 witness: for a concrete call hit exactly at the target date the ratio
is in `[0, 1]` and the hit timestamp does not exceed the target date. -/
theorem C2_time_to_hit_witness :
    (∃ r, (analyzeCall sampleCall [⟨1, 1⟩, ⟨2, 5⟩] 5).timeToHitRatio = some r ∧
      0 ≤ r ∧ r ≤ 1) ∧
    (∀ h, (analyzeCall sampleCall [⟨1, 1⟩, ⟨2, 5⟩] 5).targetHitTimestamp = some h →
      h ≤ sampleCall.targetDate) :=
  (C2_time_to_hit sampleCall [⟨1, 1⟩, ⟨2, 5⟩] 5 true
    (analyzeCall sampleCall [⟨1, 1⟩, ⟨2, 5⟩] 5) _
    rfl (verifySingleCall_nonempty sampleCall [⟨1, 1⟩, ⟨2, 5⟩] 5 true (by decide))
    (by decide)).2 (by decide)

/-- C3 counterexample: a FAIL outcome whose incoming verification timestamp
(5) is before the stored last-verified timestamp (10) is still applied when
the wall clock (20) is past the stored timestamp, and it stores the wall
clock, not the incoming timestamp — refuting both halves of the claim. -/
theorem C3_counterexample :
    updateUserTokenCallStreak (some sampleStreak) 7 TokenCallStatus.verified_fail 5 20 ≠
      sampleStreak ∧
    (updateUserTokenCallStreak (some sampleStreak) 7
      TokenCallStatus.verified_fail 5 20).lastVerifiedCallTimestamp ≠ some 5 := by
  exact ⟨by decide, by decide⟩

/-- C3 amended: the timestamp that governs the no-op guard and that is stored
is the effective timestamp — the incoming verification timestamp for a
success outcome, the current wall-clock time for any other outcome.  The
update is a no-op leaving the record unchanged whenever a stored
last-verified timestamp exists and the effective timestamp is not strictly
after it; whenever the update is applied, the effective timestamp is stored
as the new last-verified timestamp regardless of outcome. -/
theorem C3_effective_timestamp (streak : UserTokenCallStreak) (u : Nat)
    (st : TokenCallStatus) (ts now : Int) :
    (∀ last, streak.lastVerifiedCallTimestamp = some last →
      (if st = TokenCallStatus.verified_success then ts else now) ≤ last →
      updateUserTokenCallStreak (some streak) u st ts now = streak) ∧
    ((∀ last, streak.lastVerifiedCallTimestamp = some last →
        last < (if st = TokenCallStatus.verified_success then ts else now)) →
      (updateUserTokenCallStreak (some streak) u st ts now).lastVerifiedCallTimestamp =
        some (if st = TokenCallStatus.verified_success then ts else now)) := by
  constructor
  · intro last hl hle
    exact applyStreakUpdate_noop streak st ts now last hl hle
  · intro h
    exact applyStreakUpdate_last streak st ts now h

/-- C3 witness: a success with an old incoming timestamp is rejected, while a
FAIL with fresh wall clock stores the wall clock. -/
theorem C3_effective_timestamp_witness :
    updateUserTokenCallStreak (some sampleStreak) 7
      TokenCallStatus.verified_success 5 20 = sampleStreak ∧
    (updateUserTokenCallStreak (some sampleStreak) 7
      TokenCallStatus.verified_fail 99 20).lastVerifiedCallTimestamp = some 20 :=
  ⟨(C3_effective_timestamp sampleStreak 7 TokenCallStatus.verified_success 5 20).1
      10 rfl (by decide),
   (C3_effective_timestamp sampleStreak 7 TokenCallStatus.verified_fail 99 20).2
      (fun last hl => by simp [sampleStreak] at hl; omega)⟩

/-- C4 counterexample: in the concrete successful resolution of `sampleCall`
the effect trace is streak update first, record save second, so the save does
not precede the streak update as the claim asserts. -/
theorem C4_counterexample :
    ¬ savePrecedesStreakUpdate
      (((verifySingleCall sampleCall (FetchResult.ok [⟨1, 3⟩]) 5 true).toOption.map
        Prod.snd).getD []) := by
  intro hcl
  exact absurd (hcl 1 0 (by decide) (by decide) (by decide) (by decide)) (by decide)

/-- C4 amended: the streak update is invoked before the call record is
persisted (not after); the record is persisted as one save carrying peak,
final price, verification timestamp and status; and a failure of the streak
step (its error is caught) leaves the persisted verification record
identical. -/
theorem C4_order (call : TokenCall) (items : List PricePoint) (now : Int)
    (hne : items ≠ []) :
    ∃ c' badge,
      verifySingleCall call (FetchResult.ok items) now true =
        Except.ok (c', Event.streakUpdate call.userId c'.status now ::
          Event.saveCall c' :: badge) ∧
      verifySingleCall call (FetchResult.ok items) now false =
        Except.ok (c', Event.saveCall c' :: badge) ∧
      c' = analyzeCall call items now := by
  refine ⟨analyzeCall call items now,
    (if (analyzeCall call items now).status = TokenCallStatus.verified_success then
      [Event.badgeCheck call.userId call.id] else []), ?_, ?_, rfl⟩
  · rw [verifySingleCall_nonempty call items now true hne]
    rfl
  · rw [verifySingleCall_nonempty call items now false hne]
    rfl

/-- C4 witness: the amended order at a concrete successful resolution. -/
theorem C4_order_witness :
    ∃ c' badge,
      verifySingleCall sampleCall (FetchResult.ok [⟨1, 3⟩]) 5 true =
        Except.ok (c', Event.streakUpdate sampleCall.userId c'.status 5 ::
          Event.saveCall c' :: badge) ∧
      verifySingleCall sampleCall (FetchResult.ok [⟨1, 3⟩]) 5 false =
        Except.ok (c', Event.saveCall c' :: badge) ∧
      c' = analyzeCall sampleCall [⟨1, 3⟩] 5 :=
  C4_order sampleCall [⟨1, 3⟩] 5 (by decide)

/-- C5 counterexample: with a single negative-priced sample the persisted
peak is the loop's initial accumulator 0, not the maximum observed sample
price −1. -/
theorem C5_counterexample :
    (analyzeCall sampleCall [⟨10, -1⟩] 5).peakPriceDuringPeriod = some 0 ∧
    specPeak [⟨10, -1⟩] = some (-1) ∧
    (analyzeCall sampleCall [⟨10, -1⟩] 5).peakPriceDuringPeriod ≠
      specPeak [⟨10, -1⟩] :=
  ⟨by decide, by decide, by decide⟩

/-- C5 amended: for a non-empty sample sequence the scan persists the maximum
of 0 and the sample prices as the peak (this equals the maximum observed
sample price whenever some sample is nonnegative — always the case for real
prices), the last sample's price as the final price, and the timestamp of the
first sample in sequence order whose price reaches the target (null if none)
as the target-hit timestamp. -/
theorem C5_scan_results (call : TokenCall) (items : List PricePoint) (now : Int)
    (hne : items ≠ []) :
    (analyzeCall call items now).peakPriceDuringPeriod =
      some ((items.map (fun p => p.value)).foldl max 0) ∧
    ((∃ p ∈ items, 0 ≤ p.value) →
      (analyzeCall call items now).peakPriceDuringPeriod = specPeak items) ∧
    (analyzeCall call items now).finalPriceAtTargetDate =
      some ((items.getLast hne).value) ∧
    (analyzeCall call items now).targetHitTimestamp =
      (items.find? (fun p => decide (call.targetPrice ≤ p.value))).map
        (fun p => p.unixTime * 1000) := by
  have hproj : (analyzeCall call items now).peakPriceDuringPeriod =
        some (scanItems call.targetPrice items).peak ∧
      (analyzeCall call items now).finalPriceAtTargetDate =
        (items.getLast?).map (fun p => p.value) := by
    by_cases h : call.targetPrice ≤ (scanItems call.targetPrice items).peak ∧
        (scanItems call.targetPrice items).hit ≠ none
    · rw [analyzeCall_success_eq call items now h]
      exact ⟨rfl, rfl⟩
    · rw [analyzeCall_fail_eq call items now h]
      exact ⟨rfl, rfl⟩
  have hpeak : (analyzeCall call items now).peakPriceDuringPeriod =
      some ((items.map (fun p => p.value)).foldl max 0) := by
    rw [hproj.1]
    unfold scanItems
    rw [scanItems_peak, foldl_max_comp]
  refine ⟨hpeak, ?_, ?_, ?_⟩
  · rintro ⟨q, hq, hq0⟩
    rw [hpeak]
    cases items with
    | nil => exact absurd rfl hne
    | cons p rest =>
      rw [List.map_cons, List.foldl_cons, foldl_max_swap]
      rw [show specPeak (p :: rest) =
          some ((rest.map (fun p => p.value)).foldl max p.value) from rfl]
      have h0 : (0 : ℚ) ≤ (rest.map (fun p => p.value)).foldl max p.value := by
        rcases List.mem_cons.mp hq with rfl | hqr
        · exact le_trans hq0 (le_foldl_max _ _)
        · exact le_trans hq0
            (mem_le_foldl_max _ _ _ (List.mem_map.mpr ⟨q, hqr, rfl⟩))
      rw [max_eq_right h0]
  · rw [hproj.2, List.getLast?_eq_getLast items hne]
    rfl
  · rw [analyzeCall_hitTimestamp]
    exact scanItems_hit call.targetPrice items

/-- C5 witness: at a concrete history with nonnegative prices the persisted
peak is the true maximum and the final price is the last sample's value. -/
theorem C5_scan_results_witness :
    (analyzeCall sampleCall [⟨1, 1⟩, ⟨2, 5⟩] 5).peakPriceDuringPeriod =
      specPeak [⟨1, 1⟩, ⟨2, 5⟩] ∧
    (analyzeCall sampleCall [⟨1, 1⟩, ⟨2, 5⟩] 5).finalPriceAtTargetDate =
      some ((([⟨1, 1⟩, ⟨2, 5⟩] : List PricePoint).getLast (by decide)).value) :=
  have h := C5_scan_results sampleCall [⟨1, 1⟩, ⟨2, 5⟩] 5 (by decide)
  ⟨h.2.1 ⟨⟨2, 5⟩, by decide, by decide⟩, h.2.2.1⟩

theorem updateUserTokenCallStreak_some (streak : UserTokenCallStreak) (u : Nat)
    (st : TokenCallStatus) (ts now : Int) :
    updateUserTokenCallStreak (some streak) u st ts now =
      applyStreakUpdate streak st ts now := rfl

/-- C6: a success outcome applied to the streak increments the current streak
and raises the longest to match when exceeded; a fail outcome resets the
current streak to 0 and leaves the longest untouched; and Scenario D — two
successes then one failure — yields the current-streak sequence 1, 2, 0 with
the longest staying at 2. -/
theorem C6_streak_outcomes :
    (∀ (streak : UserTokenCallStreak) (u : Nat) (ts now : Int),
      (∀ last, streak.lastVerifiedCallTimestamp = some last → last < ts) →
      (updateUserTokenCallStreak (some streak) u TokenCallStatus.verified_success
          ts now).currentSuccessStreak = streak.currentSuccessStreak + 1 ∧
      (updateUserTokenCallStreak (some streak) u TokenCallStatus.verified_success
          ts now).longestSuccessStreak =
        max streak.longestSuccessStreak (streak.currentSuccessStreak + 1)) ∧
    (∀ (streak : UserTokenCallStreak) (u : Nat) (ts now : Int),
      (∀ last, streak.lastVerifiedCallTimestamp = some last → last < now) →
      (updateUserTokenCallStreak (some streak) u TokenCallStatus.verified_fail
          ts now).currentSuccessStreak = 0 ∧
      (updateUserTokenCallStreak (some streak) u TokenCallStatus.verified_fail
          ts now).longestSuccessStreak = streak.longestSuccessStreak) ∧
    (scenarioD1.currentSuccessStreak = 1 ∧ scenarioD2.currentSuccessStreak = 2 ∧
     scenarioD3.currentSuccessStreak = 0 ∧ scenarioD2.longestSuccessStreak = 2 ∧
     scenarioD3.longestSuccessStreak = 2) := by
  refine ⟨?_, ?_, by decide⟩
  · intro streak u ts now h
    rw [updateUserTokenCallStreak_some, applyStreakUpdate_success streak ts now h]
    exact ⟨rfl, rfl⟩
  · intro streak u ts now h
    rw [updateUserTokenCallStreak_some, applyStreakUpdate_fail streak ts now h]
    exact ⟨rfl, rfl⟩

/-- C6 witness: the general success and fail folds at a concrete streak. -/
theorem C6_streak_outcomes_witness :
    (updateUserTokenCallStreak (some sampleStreak) 7 TokenCallStatus.verified_success
      99 0).currentSuccessStreak = 4 ∧
    (updateUserTokenCallStreak (some sampleStreak) 7 TokenCallStatus.verified_success
      99 0).longestSuccessStreak = 5 ∧
    (updateUserTokenCallStreak (some sampleStreak) 7 TokenCallStatus.verified_fail
      0 20).currentSuccessStreak = 0 ∧
    (updateUserTokenCallStreak (some sampleStreak) 7 TokenCallStatus.verified_fail
      0 20).longestSuccessStreak = 5 :=
  have hs := C6_streak_outcomes.1 sampleStreak 7 99 0
    (fun last hl => by simp [sampleStreak] at hl; omega)
  have hf := C6_streak_outcomes.2.1 sampleStreak 7 0 20
    (fun last hl => by simp [sampleStreak] at hl; omega)
  ⟨hs.1, hs.2, hf.1, hf.2⟩

/-- C7: starting from the lazily-created record (both counts 0), after any
sequence of streak updates the longest streak is at least the current streak,
and the longest streak never decreases when further updates are applied. -/
theorem C7_streak_invariants (u : Nat) (ops extra : List StreakOp) :
    (runStreakUpdates u ops).currentSuccessStreak ≤
      (runStreakUpdates u ops).longestSuccessStreak ∧
    (runStreakUpdates u ops).longestSuccessStreak ≤
      (runStreakUpdates u (ops ++ extra)).longestSuccessStreak := by
  constructor
  · exact foldStreak_inv ops (freshStreak u) (Nat.le_refl 0)
  · unfold runStreakUpdates
    rw [List.foldl_append]
    exact foldStreak_longest_mono extra _

/-- C8: when the price history is empty, the call is not failed: only the
verification timestamp is stamped, the status stays PENDING, every other
field is unchanged, the record is saved, and resolution returns without
invoking the streak or badge subsystems. -/
theorem C8_empty_history (call : TokenCall) (now : Int) (streakOk : Bool)
    (hpend : call.status = TokenCallStatus.pending) :
    ∃ c', verifySingleCall call (FetchResult.ok []) now streakOk =
        Except.ok (c', [Event.saveCall c']) ∧
      c'.status = TokenCallStatus.pending ∧
      c'.verificationTimestamp = some now ∧
      c'.id = call.id ∧ c'.userId = call.userId ∧ c'.tokenId = call.tokenId ∧
      c'.callTimestamp = call.callTimestamp ∧ c'.targetDate = call.targetDate ∧
      c'.targetPrice = call.targetPrice ∧
      c'.peakPriceDuringPeriod = call.peakPriceDuringPeriod ∧
      c'.finalPriceAtTargetDate = call.finalPriceAtTargetDate ∧
      c'.targetHitTimestamp = call.targetHitTimestamp ∧
      c'.timeToHitRatio = call.timeToHitRatio := by
  refine ⟨{ call with verificationTimestamp := some now },
    verifySingleCall_empty call now streakOk, ?_, rfl, rfl, rfl, rfl, rfl, rfl,
    rfl, rfl, rfl, rfl, rfl⟩
  exact hpend

/-- C8 witness: the empty-history retry path at a concrete pending call. -/
theorem C8_empty_history_witness :
    ∃ c', verifySingleCall sampleCall (FetchResult.ok []) 5 true =
        Except.ok (c', [Event.saveCall c']) ∧
      c'.status = TokenCallStatus.pending ∧
      c'.verificationTimestamp = some 5 ∧
      c'.id = sampleCall.id ∧ c'.userId = sampleCall.userId ∧
      c'.tokenId = sampleCall.tokenId ∧
      c'.callTimestamp = sampleCall.callTimestamp ∧
      c'.targetDate = sampleCall.targetDate ∧
      c'.targetPrice = sampleCall.targetPrice ∧
      c'.peakPriceDuringPeriod = sampleCall.peakPriceDuringPeriod ∧
      c'.finalPriceAtTargetDate = sampleCall.finalPriceAtTargetDate ∧
      c'.targetHitTimestamp = sampleCall.targetHitTimestamp ∧
      c'.timeToHitRatio = sampleCall.timeToHitRatio :=
  C8_empty_history sampleCall 5 true rfl

/-- C9: if the fetch for one due record throws (for instance a rate-limit
error), that record is marked `ERROR` with a verification timestamp, and
every other record of the batch is still processed exactly as it would be on
its own. -/
theorem C9_error_isolation (store : List TokenCall) (fetchOf : Nat → FetchResult)
    (now : Int) (i : Nat) (c : TokenCall) (hc : store[i]? = some c)
    (hdue : isDue now c = true) (herr : fetchOf c.id = FetchResult.err) :
    (verifyPendingCalls store fetchOf now)[i]? =
      some { c with
        status := TokenCallStatus.error,
        verificationTimestamp := some now } ∧
    ∀ j c', j ≠ i → store[j]? = some c' →
      (verifyPendingCalls store fetchOf now)[j]? =
        some (if isDue now c' then processCall fetchOf now c' else c') := by
  constructor
  · unfold verifyPendingCalls
    rw [List.getElem?_map, hc]
    have hproc : processCall fetchOf now c =
        { c with
          status := TokenCallStatus.error,
          verificationTimestamp := some now } := by
      unfold processCall
      rw [herr]
      rfl
    rw [show Option.map (fun c => if isDue now c then processCall fetchOf now c else c)
        (some c) = some (if isDue now c then processCall fetchOf now c else c) from rfl]
    rw [if_pos hdue, hproc]
  · intro j c' hji hcj
    unfold verifyPendingCalls
    rw [List.getElem?_map, hcj]
    rfl

/-- C9 witness: in a two-call batch where the first call's fetch throws, the
first record is marked `ERROR` and the second is still processed normally. -/
theorem C9_error_isolation_witness :
    (verifyPendingCalls [sampleCall, sampleCall2] sampleFetch 2500)[0]? =
      some { sampleCall with
        status := TokenCallStatus.error,
        verificationTimestamp := some 2500 } ∧
    ∀ j c', j ≠ 0 → [sampleCall, sampleCall2][j]? = some c' →
      (verifyPendingCalls [sampleCall, sampleCall2] sampleFetch 2500)[j]? =
        some (if isDue 2500 c' then processCall sampleFetch 2500 c' else c') :=
  C9_error_isolation [sampleCall, sampleCall2] sampleFetch 2500 0 sampleCall
    rfl (by decide) rfl

/-- C10: the due-query selects exactly the records with status PENDING and
target date at most now; a PENDING call with a future target date is not
selected, a terminal call is not selected, and any unselected record is left
unchanged by the run. -/
theorem C10_due_query (store : List TokenCall) (fetchOf : Nat → FetchResult)
    (now : Int) :
    (∀ c ∈ dueQuery store now,
      c.status = TokenCallStatus.pending ∧ c.targetDate ≤ now) ∧
    (∀ c, c.status = TokenCallStatus.pending → now < c.targetDate →
      c ∉ dueQuery store now) ∧
    (∀ c, c.status ≠ TokenCallStatus.pending → c ∉ dueQuery store now) ∧
    (∀ (i : Nat) (c : TokenCall), store[i]? = some c → isDue now c = false →
      (verifyPendingCalls store fetchOf now)[i]? = some c) := by
  refine ⟨?_, ?_, ?_, ?_⟩
  · intro c hmem
    have hdue := (List.mem_filter.mp hmem).2
    simpa [isDue] using hdue
  · intro c hp hf hmem
    have hdue := (List.mem_filter.mp hmem).2
    have hsp : c.status = TokenCallStatus.pending ∧ c.targetDate ≤ now := by
      simpa [isDue] using hdue
    omega
  · intro c hp hmem
    have hdue := (List.mem_filter.mp hmem).2
    have hsp : c.status = TokenCallStatus.pending ∧ c.targetDate ≤ now := by
      simpa [isDue] using hdue
    exact hp hsp.1
  · intro i c hci hfalse
    unfold verifyPendingCalls
    rw [List.getElem?_map, hci]
    rw [show Option.map (fun c => if isDue now c then processCall fetchOf now c else c)
        (some c) = some (if isDue now c then processCall fetchOf now c else c) from rfl]
    rw [if_neg (by simp [hfalse])]

/-- C10 witness: at a three-call store only the due pending call is selected;
the future-dated pending call and the terminal call are untouched. -/
theorem C10_due_query_witness :
    (sampleCall.status = TokenCallStatus.pending ∧ sampleCall.targetDate ≤ 2500) ∧
    sampleFutureCall ∉ dueQuery [sampleCall, sampleFutureCall, sampleTerminalCall] 2500 ∧
    sampleTerminalCall ∉ dueQuery [sampleCall, sampleFutureCall, sampleTerminalCall] 2500 ∧
    (verifyPendingCalls [sampleCall, sampleFutureCall, sampleTerminalCall]
      sampleFetch 2500)[1]? = some sampleFutureCall ∧
    (verifyPendingCalls [sampleCall, sampleFutureCall, sampleTerminalCall]
      sampleFetch 2500)[2]? = some sampleTerminalCall := by
  obtain ⟨h1, h2, h3, h4⟩ :=
    C10_due_query [sampleCall, sampleFutureCall, sampleTerminalCall] sampleFetch 2500
  exact ⟨h1 sampleCall (by decide), h2 sampleFutureCall rfl (by decide),
    h3 sampleTerminalCall (by decide), h4 1 sampleFutureCall rfl (by decide),
    h4 2 sampleTerminalCall rfl (by decide)⟩

end DyorHub
